import Mathlib

/-!
Shallow embedding of `src/decoder/_flac_common.c` (Music Player Daemon,
FLAC / OggFLAC common decoder helpers) and proofs about it.

The embedding follows the C source line by line:

* `sample_format`, `flac_sample_format` — the bits-per-sample → sample
  format mapping (lines 59-78 of the source);
* `flac_data`, `flac_data_init` — the per-session state (lines 34-48);
* `flac_data_get_audio_format` — format negotiation (lines 80-105);
* `flac_metadata_common_cb` — the metadata callback (lines 107-132);
* `flac_error_common_cb` — the error callback (lines 134-154);
* `flac_common_write` — the frame-write callback (lines 156-195);
* `flac_cue_track`, `flac_vtrack_tnum` — cue-sheet virtual track naming
  (lines 199-246).

External collaborators that are not part of the source fragment
(`audio_format_init_checked`, `audio_format_frame_size`, `pcm_buffer_get`,
`flac_parse_replay_gain`, `flac_vorbis_comments_to_tag`, `decoder_data`,
`decoder_get_command`, libc `strtol` / `strrchr`, glib `g_strdup_printf`)
are modelled either from the specification (the first two, for buffer growth)
or from their standard documented semantics (libc), or are abstracted as
parameters (the decoder callbacks, the replay-gain parser, the tag merger).
Machine integers are modelled as `Nat` with explicit reductions modulo
`2 ^ 32` (C `unsigned`) and `2 ^ 64` (C `FLAC__uint64`) where overflow can
occur.
-/

/-- Embedding of `enum sample_format` (values used by the FLAC plugin):
`SAMPLE_FORMAT_UNDEFINED`, `SAMPLE_FORMAT_S8`, `SAMPLE_FORMAT_S16`,
`SAMPLE_FORMAT_S24_P32`, `SAMPLE_FORMAT_S32`. -/
inductive sample_format where
  | undefined
  | s8
  | s16
  | s24_p32
  | s32
deriving DecidableEq, Repr

/-- Embedding of `FLAC__StreamMetadata_StreamInfo` (the fields this code
reads: `sample_rate`, `channels`, `bits_per_sample`; all C `unsigned`). -/
structure StreamInfo where
  sample_rate : Nat
  channels : Nat
  bits_per_sample : Nat
deriving DecidableEq, Repr

/-- Embedding of `struct audio_format` as negotiated by this code. -/
structure audio_format where
  sample_rate : Nat
  channels : Nat
  format : sample_format
deriving DecidableEq, Repr

/-- Tags are carried opaquely by this code; the callback only ever merges
comment fields into an existing tag through an external helper, so a tag is
modelled as an opaque list of (name, value) pairs. -/
abbrev Tag : Type := List (String × String)

/-- Vorbis comment block contents, carried opaquely (only handed to the
external replay-gain parser and tag merger). -/
abbrev VorbisComment : Type := List (String × String)

/-- Embedding of `struct flac_data` (the fields of `_flac_common.h` this
fragment touches).  The C `flac_data_init` leaves `stream_info`,
`sample_format` and `frame_size` uninitialised; the model gives them
explicit zero/undefined defaults, and no proof below depends on a field
before the code writes it. -/
structure flac_data where
  /-- capacity of the reusable `pcm_buffer`; the buffer contents are
  produced by the external `flac_convert` and are not modelled. -/
  buffer_capacity : Nat
  have_stream_info : Bool
  stream_info : StreamInfo
  sample_format : sample_format
  frame_size : Nat
  first_frame : Nat
  next_frame : Nat
  position : Nat
  tag : Option Tag
deriving DecidableEq, Repr

/-- Embedding of `flac_data_init` (decoder and input-stream pointers are
environment, not state, and are left out of the model). -/
def flac_data_init : flac_data :=
  { buffer_capacity := 0
    have_stream_info := false
    stream_info := ⟨0, 0, 0⟩
    sample_format := .undefined
    frame_size := 0
    first_frame := 0
    next_frame := 0
    position := 0
    tag := none }

/-- Embedding of `flac_sample_format` (source lines 59-78): the
`switch (si->bits_per_sample)` mapping. -/
def flac_sample_format (si : StreamInfo) : sample_format :=
  match si.bits_per_sample with
  | 8 => .s8
  | 16 => .s16
  | 24 => .s24_p32
  | 32 => .s32
  | _ => .undefined

/-- Modelled from the spec: `audio_format_init_checked` lives in
`audio_check.c`, which is not part of the source fragment.  Per the spec
(§4.1), the validating constructor rejects an undefined sample format and
invalid combinations such as a zero sample rate or a zero channel count,
and otherwise yields the audio format. -/
def audio_format_init_checked (rate : Nat) (fmt : sample_format)
    (channels : Nat) : Option audio_format :=
  if rate = 0 then none
  else if fmt = .undefined then none
  else if channels = 0 then none
  else some ⟨rate, channels, fmt⟩

/-- Modelled from the spec: byte width of one sample in the given format
(§4.1/§3: 24-bit samples are stored in 32-bit words). -/
def sample_format_size (fmt : sample_format) : Nat :=
  match fmt with
  | .undefined => 0
  | .s8 => 1
  | .s16 => 2
  | .s24_p32 => 4
  | .s32 => 4

/-- Modelled from the spec: `audio_format_frame_size` (not in the source
fragment); §4.1: `frame_size = channels × bytes_per_sample(sample_format)`. -/
def audio_format_frame_size (af : audio_format) : Nat :=
  af.channels * sample_format_size af.format

/-- Embedding of `flac_data_get_audio_format` (source lines 80-105).
Returns (C return value, the constructed `*audio_format` if any, the
updated `flac_data`).  Note the C code stores `data->sample_format`
*before* the validity check, so that write survives a failed check. -/
def flac_data_get_audio_format (data : flac_data) :
    Bool × Option audio_format × flac_data :=
  if data.have_stream_info = false then
    (false, none, data)
  else
    let fmt := flac_sample_format data.stream_info
    let data1 := { data with sample_format := fmt }
    match audio_format_init_checked data.stream_info.sample_rate fmt
        data.stream_info.channels with
    | none => (false, none, data1)
    | some af =>
        (true, some af, { data1 with frame_size := audio_format_frame_size af })

/-- Embedding of `FLAC__StreamMetadata` as dispatched on by
`flac_metadata_common_cb`: the `STREAMINFO` case, the `VORBIS_COMMENT`
case, and every other block type (the `default:` branch). -/
inductive FlacMetadataBlock where
  | streaminfo (si : StreamInfo)
  | vorbis_comment (vc : VorbisComment)
  | other
deriving Repr

/-- Observable side effects of the metadata callback: `decoder_replay_gain`
hands a freshly parsed replay-gain structure to the consumer (the matching
`replay_gain_info_free` is memory management and is not modelled). -/
inductive MetaEvent (RG : Type) where
  | replay_gain (rgi : RG)
deriving Repr

/-- Embedding of `flac_metadata_common_cb` (source lines 107-132).
`flac_parse_replay_gain` and `flac_vorbis_comments_to_tag` live in
`flac_metadata.c`, outside the fragment, and are taken as parameters
(`parse_rg`, `merge_tag`); `RG` is the replay-gain payload type.  In the C
source the `VORBIS_COMMENT` case falls through into `default:`, which does
nothing.  Returns the updated state and the emitted events. -/
def flac_metadata_common_cb {RG : Type}
    (parse_rg : VorbisComment → Option RG)
    (merge_tag : Tag → VorbisComment → Tag)
    (block : FlacMetadataBlock) (data : flac_data) :
    flac_data × List (MetaEvent RG) :=
  match block with
  | .streaminfo si =>
      ({ data with stream_info := si, have_stream_info := true }, [])
  | .vorbis_comment vc =>
      let events :=
        match parse_rg vc with
        | some rgi => [MetaEvent.replay_gain rgi]
        | none => []
      let data1 :=
        match data.tag with
        | some t => { data with tag := some (merge_tag t vc) }
        | none => data
      (data1, events)
  | .other => (data, [])

/-- Embedding of `enum decoder_command`: `DECODE_COMMAND_NONE`, `_START`,
`_STOP`, `_SEEK`. -/
inductive decoder_command where
  | none
  | start
  | stop
  | seek
deriving DecidableEq, Repr

/-- Embedding of `FLAC__StreamDecoderErrorStatus`: the three statuses the
switch names, plus `other` for the `default:` branch. -/
inductive FlacErrorStatus where
  | lost_sync
  | bad_header
  | frame_crc_mismatch
  | other
deriving DecidableEq, Repr

/-- Classification of a decode error as reported in the warning. -/
inductive WarningKind where
  | lostSync
  | badHeader
  | crcMismatch
  | unknown
deriving DecidableEq, Repr

/-- One `g_warning` emission: the classified kind and the plugin name
interpolated into the message (`"%s lost sync\n"` etc.). -/
structure Warning where
  kind : WarningKind
  plugin : String
deriving DecidableEq, Repr

/-- Embedding of `flac_error_common_cb` (source lines 134-154).
`decoder_get_command` is external; its result is the parameter `cmd`
(the decoder's pending command).  Returns the (unchanged) state and the
list of emitted warnings.  The C function returns `void`, so it cannot
signal an abort; correspondingly the model returns no status. -/
def flac_error_common_cb (plugin : String) (status : FlacErrorStatus)
    (cmd : decoder_command) (data : flac_data) :
    flac_data × List Warning :=
  if cmd = .stop then
    (data, [])
  else
    match status with
    | .lost_sync => (data, [⟨.lostSync, plugin⟩])
    | .bad_header => (data, [⟨.badHeader, plugin⟩])
    | .frame_crc_mismatch => (data, [⟨.crcMismatch, plugin⟩])
    | .other => (data, [⟨.unknown, plugin⟩])

/-- Embedding of `FLAC__FrameHeader` (the fields this code reads; all C
`unsigned`). -/
structure FlacFrameHeader where
  blocksize : Nat
  channels : Nat
  sample_rate : Nat
deriving DecidableEq, Repr

/-- Embedding of `FLAC__StreamDecoderWriteStatus`: `..._CONTINUE` and
`..._ABORT`. -/
inductive FlacWriteStatus where
  | cont
  | abort
deriving DecidableEq, Repr

/-- Result of one `flac_common_write` call: the updated session state, the
status returned to libFLAC, and the arguments of the `decoder_data`
delivery (buffer size in bytes and the bit-rate estimate). -/
structure WriteResult where
  data : flac_data
  status : FlacWriteStatus
  buffer_size : Nat
  bit_rate : Nat
deriving DecidableEq, Repr

/-- The bit-rate computation of `flac_common_write` (source lines 172-176),
with C integer widths made explicit: `nbytes` is `FLAC__uint64`, so
`nbytes * 8` and the further product with the (promoted) `sample_rate` are
64-bit; `1000 * blocksize` is C `unsigned` arithmetic (32-bit); the 64-bit
quotient is stored into the `unsigned bit_rate`, truncating modulo `2^32`.
(C division by zero is undefined; the model inherits Lean's `x / 0 = 0`.) -/
def flac_bit_rate (nbytes sample_rate blocksize : Nat) : Nat :=
  if 0 < nbytes then
    nbytes * 8 % 2 ^ 64 * sample_rate % 2 ^ 64 / (1000 * blocksize % 2 ^ 32)
      % 2 ^ 32
  else 0

/-- Modelled from the spec: `pcm_buffer_get` (the `pcm_buffer` helpers are
not in the source fragment); §4.3: the capacity grows to the requested
size when that exceeds the current capacity and never shrinks. -/
def pcm_buffer_get_capacity (capacity size : Nat) : Nat :=
  max capacity size

/-- Embedding of `flac_common_write` (source lines 156-195).  The external
`decoder_data` delivery returns the consumer's command; that command is the
parameter `cmd`.  The sample conversion done by the external `flac_convert`
writes into the buffer and does not touch the modelled state.
`data->next_frame += frame->header.blocksize` happens before the command
switch, hence unconditionally. -/
def flac_common_write (data : flac_data) (frame : FlacFrameHeader)
    (nbytes : Nat) (cmd : decoder_command) : WriteResult :=
  let buffer_size := frame.blocksize * data.frame_size
  let bit_rate := flac_bit_rate nbytes frame.sample_rate frame.blocksize
  let data1 := { data with
    buffer_capacity := pcm_buffer_get_capacity data.buffer_capacity buffer_size
    next_frame := data.next_frame + frame.blocksize }
  let status :=
    match cmd with
    | .none => FlacWriteStatus.cont
    | .start => FlacWriteStatus.cont
    | .stop => FlacWriteStatus.abort
    | .seek => FlacWriteStatus.cont
  ⟨data1, status, buffer_size, bit_rate⟩

/-- Iterated frame delivery: one `flac_common_write` per element of
`frames`, each element giving the frame header, the `nbytes` hint and the
command the consumer returns on that delivery. -/
def flac_write_many (data : flac_data)
    (frames : List (FlacFrameHeader × Nat × decoder_command)) : flac_data :=
  match frames with
  | [] => data
  | (frame, nbytes, cmd) :: rest =>
      flac_write_many (flac_common_write data frame nbytes cmd).data rest

/-- ASCII decimal digit character for `d < 10` (code point `48 + d`, the
`'0'`-based encoding `printf` uses). -/
def decDigit (d : Nat) : Char :=
  Char.ofNat (48 + d)

/-- Fuel-driven most-significant-first decimal rendering of `n`; mirrors
`printf`'s `%u` digit production.  Any `fuel > n` suffices, since the
recursion divides `n` by 10. -/
def decDigitsCore (fuel n : Nat) : List Char :=
  match fuel with
  | 0 => []
  | fuel + 1 =>
      if n < 10 then [decDigit n]
      else decDigitsCore fuel (n / 10) ++ [decDigit (n % 10)]

/-- Decimal digits of `n`, most significant first. -/
def decimalDigits (n : Nat) : List Char :=
  decDigitsCore (n + 1) n

/-- Left pad with `'0'` to width 3: the `%03u` conversion of
`g_strdup_printf` (numbers of four or more digits are not truncated). -/
def zeroPad3 (l : List Char) : List Char :=
  List.replicate (3 - l.length) '0' ++ l

/-- The characters `"track_"` of the synthetic filename. -/
def trackHead : List Char := ['t', 'r', 'a', 'c', 'k', '_']

/-- The characters `".flac"` of the synthetic filename. -/
def flacTail : List Char := ['.', 'f', 'l', 'a', 'c']

/-- Embedding of the fields of `FLAC__StreamMetadata_CueSheet` this code
reads (`num_tracks`, a C `unsigned`). -/
structure FlacCueSheet where
  num_tracks : Nat
deriving DecidableEq, Repr

/-- Embedding of `flac_cue_track` (source lines 199-231).  The external
`FLAC__metadata_get_cuesheet` reads the file at `pathname`; its outcome is
the parameter `cs` (`none` when retrieval fails).  On success with more
than one track and `0 < tnum < num_tracks` the function returns the
filename built by `g_strdup_printf("track_%03u.flac", tnum)`. -/
def flac_cue_track (cs : Option FlacCueSheet) (tnum : Nat) : Option String :=
  match cs with
  | none => none
  | some c =>
      if c.num_tracks ≤ 1 then none
      else if 0 < tnum ∧ tnum < c.num_tracks then
        some (String.mk (trackHead ++ zeroPad3 (decimalDigits tnum) ++ flacTail))
      else none

/-- The suffix of `l` strictly after the last occurrence of `c`, or `none`
when `c` does not occur: the characters `strtol` sees after the C code's
`strrchr(fname, c)` followed by `++ptr`. -/
def afterLast (c : Char) (l : List Char) : Option (List Char) :=
  match l with
  | [] => none
  | x :: xs =>
      match afterLast c xs with
      | some r => some r
      | none => if x = c then some xs else none

/-- The white-space set of `isspace` in the C locale: space, `\t`, `\n`,
vertical tab, form feed, `\r`. -/
def isSpaceChar (c : Char) : Bool :=
  c = ' ' || c = '\t' || c = '\n' || c = Char.ofNat 11 || c = Char.ofNat 12
    || c = '\r'

/-- ASCII decimal digit test (`isdigit` for the characters `strtol`
accepts in base 10): code point between 48 (`'0'`) and 57 (`'9'`). -/
def isDigitChar (c : Char) : Bool :=
  48 ≤ c.toNat && c.toNat ≤ 57

/-- Decimal digit accumulator of `strtol`: consumes leading ASCII digits,
folding them onto `acc`, and stops at the first non-digit. -/
def digitsVal (l : List Char) (acc : Nat) : Nat :=
  match l with
  | [] => acc
  | c :: cs =>
      if isDigitChar c then digitsVal cs (acc * 10 + (c.toNat - 48)) else acc

/-- Modelled from libc: `strtol(s, NULL, 10)` — skip C-locale white space,
accept one optional `'-'` or `'+'`, then accumulate decimal digits (zero
digits yield 0). -/
def strtol10 (l : List Char) : Int :=
  let l1 := l.dropWhile isSpaceChar
  match l1 with
  | [] => 0
  | c :: rest =>
      if c = '-' then -(digitsVal rest 0 : Int)
      else if c = '+' then (digitsVal rest 0 : Int)
      else (digitsVal (c :: rest) 0 : Int)

/-- Modelled from libc: on overflow `strtol` clamps to `LONG_MAX` /
`LONG_MIN` (64-bit `long`). -/
def clampLong (v : Int) : Int :=
  max (-(2 ^ 63)) (min (2 ^ 63 - 1) v)

/-- Embedding of `flac_vtrack_tnum` (source lines 233-246): find the last
`'_'` (no occurrence yields 0), then `(unsigned int)strtol(++ptr, NULL,
10)` — the `long` result cast to C `unsigned`, i.e. reduced modulo
`2 ^ 32`. -/
def flac_vtrack_tnum (fname : String) : Nat :=
  match afterLast '_' fname.data with
  | none => 0
  | some rest => ((clampLong (strtol10 rest)).emod (2 ^ 32)).toNat

/-- Concrete session state used to exercise the negotiation theorems: a
captured STREAMINFO with 20 bits per sample (an unsupported depth). -/
def data_bps20 : flac_data :=
  { flac_data_init with have_stream_info := true, stream_info := ⟨44100, 2, 20⟩ }

/-- Session state after the metadata callback has processed a first
STREAMINFO block (44100 Hz, stereo, 16-bit), starting from a fresh
session.  The replay-gain parser and tag merger are irrelevant to the
STREAMINFO path and are instantiated trivially. -/
def data_after_si1 : flac_data :=
  (flac_metadata_common_cb (fun _ => (none : Option Unit)) (fun t _ => t)
    (.streaminfo ⟨44100, 2, 16⟩) flac_data_init).1

/-- Session state after a second, different STREAMINFO block (48000 Hz,
mono, 24-bit) has been processed on top of `data_after_si1`. -/
def data_after_si2 : flac_data :=
  (flac_metadata_common_cb (fun _ => (none : Option Unit)) (fun t _ => t)
    (.streaminfo ⟨48000, 1, 24⟩) data_after_si1).1

/-!
Helper lemmas about the decimal rendering, the digit accumulator and
`afterLast`, leading to the claim theorems.
-/

/-- Characters produced by `decDigitsCore` are decimal digit characters,
with code point `48 + d` for some `d < 10`. -/
theorem mem_decDigitsCore (fuel : Nat) :
    ∀ n, n < fuel → ∀ c ∈ decDigitsCore fuel n, ∃ d, d < 10 ∧ c = decDigit d := by
  induction fuel with
  | zero => intro n hn; omega
  | succ fuel ih =>
      intro n _ c hc
      rw [decDigitsCore] at hc
      by_cases h10 : n < 10
      · rw [if_pos h10] at hc
        simp only [List.mem_singleton] at hc
        exact ⟨n, h10, hc⟩
      · rw [if_neg h10] at hc
        rcases List.mem_append.mp hc with h | h
        · exact ih (n / 10) (by omega) c h
        · simp only [List.mem_singleton] at h
          exact ⟨n % 10, Nat.mod_lt _ (by omega), h⟩

/-- Code point of a digit character. -/
theorem decDigit_toNat (d : Nat) (h : d < 10) : (decDigit d).toNat = 48 + d := by
  interval_cases d <;> decide

/-- Digit characters pass the digit test. -/
theorem isDigitChar_decDigit (d : Nat) (h : d < 10) :
    isDigitChar (decDigit d) = true := by
  interval_cases d <;> decide

/-- The rendering of `n` is never empty (the fuel `n + 1` is enough). -/
theorem decimalDigits_ne_nil (n : Nat) : decimalDigits n ≠ [] := by
  rw [decimalDigits, decDigitsCore]
  by_cases h10 : n < 10
  · rw [if_pos h10]; simp
  · rw [if_neg h10]; simp

/-- The digit accumulator distributes over an all-digit left part. -/
theorem digitsVal_append (A : List Char) (hA : ∀ c ∈ A, isDigitChar c = true)
    (l : List Char) (acc : Nat) :
    digitsVal (A ++ l) acc = digitsVal l (digitsVal A acc) := by
  induction A generalizing acc with
  | nil => rfl
  | cons c cs ih =>
      have hc : isDigitChar c = true := hA c (List.mem_cons_self c cs)
      have hcs : ∀ x ∈ cs, isDigitChar x = true :=
        fun x hx => hA x (List.mem_cons_of_mem c hx)
      rw [List.cons_append, digitsVal, if_pos hc, digitsVal, if_pos hc, ih hcs]

/-- A list that does not start with a digit contributes nothing to the
accumulator. -/
theorem digitsVal_of_head_not_digit (l : List Char)
    (h : ∀ c, l.head? = some c → isDigitChar c = false) (acc : Nat) :
    digitsVal l acc = acc := by
  cases l with
  | nil => rfl
  | cons c cs =>
      have hc : isDigitChar c = false := h c rfl
      rw [digitsVal, if_neg (by simp [hc])]

/-- The digit accumulator evaluated on the decimal rendering of `n`
recovers `n` (scaled onto the incoming accumulator). -/
theorem digitsVal_decDigitsCore (fuel : Nat) :
    ∀ n, n < fuel → ∀ acc,
      digitsVal (decDigitsCore fuel n) acc =
        acc * 10 ^ (decDigitsCore fuel n).length + n := by
  induction fuel with
  | zero => intro n hn; omega
  | succ fuel ih =>
      intro n hn acc
      rw [decDigitsCore]
      by_cases h10 : n < 10
      · rw [if_pos h10]
        rw [digitsVal, if_pos (isDigitChar_decDigit n h10), digitsVal]
        rw [decDigit_toNat n h10]
        simp only [List.length_singleton, pow_one]
        omega
      · rw [if_neg h10]
        have hdigits : ∀ c ∈ decDigitsCore fuel (n / 10), isDigitChar c = true := by
          intro c hc
          obtain ⟨d, hd, rfl⟩ := mem_decDigitsCore fuel (n / 10) (by omega) c hc
          exact isDigitChar_decDigit d hd
        rw [digitsVal_append _ hdigits]
        rw [ih (n / 10) (by omega) acc]
        have hm : n % 10 < 10 := Nat.mod_lt _ (by omega)
        rw [digitsVal, if_pos (isDigitChar_decDigit _ hm), digitsVal]
        rw [decDigit_toNat _ hm]
        rw [List.length_append, List.length_singleton, pow_add, pow_one]
        have := Nat.div_add_mod n 10
        ring_nf
        omega

/-- Leading `'0'` padding does not change the accumulated value `0`. -/
theorem digitsVal_replicate_zero (k : Nat) (l : List Char) :
    digitsVal (List.replicate k '0' ++ l) 0 = digitsVal l 0 := by
  induction k with
  | zero => rfl
  | succ k ih =>
      rw [List.replicate_succ, List.cons_append, digitsVal,
        if_pos (by decide : isDigitChar '0' = true)]
      simpa using ih

/-- `afterLast` ignores an element-free tail and otherwise looks in the
right part first. -/
theorem afterLast_append (c : Char) (xs ys : List Char) :
    afterLast c (xs ++ ys) =
      match afterLast c ys with
      | some r => some r
      | none => (afterLast c xs).map (· ++ ys) := by
  induction xs with
  | nil =>
      cases h : afterLast c ys <;> simp [afterLast, h]
  | cons x xs ih =>
      rw [List.cons_append, afterLast, ih]
      cases h : afterLast c ys with
      | some r => rfl
      | none =>
          cases h2 : afterLast c xs with
          | some r => simp [afterLast, h2]
          | none => simp [afterLast, h2]

/-- When `c` does not occur, `afterLast` finds nothing. -/
theorem afterLast_eq_none (c : Char) (l : List Char) (h : c ∉ l) :
    afterLast c l = none := by
  induction l with
  | nil => rfl
  | cons x xs ih =>
      rw [afterLast, ih (fun hx => h (List.mem_cons_of_mem x hx))]
      rw [if_neg (by rintro rfl; exact h (List.mem_cons_self x xs))]

/-- Splitting at the head of `"track_"`: the last underscore of the
synthetic name is the one in the head, provided the rest has none. -/
theorem afterLast_trackHead (suffix : List Char) (h : '_' ∉ suffix) :
    afterLast '_' (trackHead ++ suffix) = some suffix := by
  rw [afterLast_append]
  rw [afterLast_eq_none '_' suffix h]
  rfl

/-- A digit character is not a sign, an underscore, or white space. -/
theorem isDigitChar_ne (c : Char) (h : isDigitChar c = true) :
    c ≠ '-' ∧ c ≠ '+' ∧ c ≠ '_' ∧ isSpaceChar c = false := by
  have hb : 48 ≤ c.toNat ∧ c.toNat ≤ 57 := by
    simpa [isDigitChar] using h
  refine ⟨?_, ?_, ?_, ?_⟩
  · rintro rfl; revert hb; decide
  · rintro rfl; revert hb; decide
  · rintro rfl; revert hb; decide
  · simp only [isSpaceChar, Bool.or_eq_false_iff, decide_eq_false_iff_not]
    refine ⟨⟨⟨⟨⟨?_, ?_⟩, ?_⟩, ?_⟩, ?_⟩, ?_⟩ <;> (rintro rfl; revert hb; decide)

/-- `strtol` on an all-digit head followed by a non-digit tail yields the
value of the head. -/
theorem strtol10_digits (ds rest : List Char) (hne : ds ≠ [])
    (hdig : ∀ c ∈ ds, isDigitChar c = true)
    (hhead : ∀ c, rest.head? = some c → isDigitChar c = false) :
    strtol10 (ds ++ rest) = (digitsVal ds 0 : Int) := by
  obtain ⟨c, cs, rfl⟩ := List.exists_cons_of_ne_nil hne
  have hc : isDigitChar c = true := hdig c (List.mem_cons_self c cs)
  obtain ⟨hminus, hplus, _, hspace⟩ := isDigitChar_ne c hc
  rw [List.cons_append, strtol10]
  simp only [List.dropWhile_cons, hspace, Bool.false_eq_true, if_false]
  rw [if_neg hminus, if_neg hplus]
  have hcs : ∀ x ∈ c :: cs, isDigitChar x = true := hdig
  have hsplit := digitsVal_append (c :: cs) hcs rest 0
  rw [List.cons_append] at hsplit
  rw [hsplit, digitsVal_of_head_not_digit rest hhead]

/-- Every character of the padded rendering is a digit. -/
theorem zeroPad3_digits (n : Nat) :
    ∀ c ∈ zeroPad3 (decimalDigits n), isDigitChar c = true := by
  intro c hc
  rcases List.mem_append.mp hc with h | h
  · rw [List.eq_of_mem_replicate h]; decide
  · obtain ⟨d, hd, rfl⟩ :=
      mem_decDigitsCore (n + 1) n (Nat.lt_succ_self n) c h
    exact isDigitChar_decDigit d hd

/-- The padded rendering is never empty. -/
theorem zeroPad3_ne_nil (n : Nat) : zeroPad3 (decimalDigits n) ≠ [] := by
  intro h
  rcases List.append_eq_nil.mp h with ⟨_, h2⟩
  exact decimalDigits_ne_nil n h2

/-- The padded rendering still evaluates to `n`. -/
theorem digitsVal_zeroPad3 (n : Nat) :
    digitsVal (zeroPad3 (decimalDigits n)) 0 = n := by
  rw [zeroPad3, digitsVal_replicate_zero]
  rw [decimalDigits, digitsVal_decDigitsCore (n + 1) n (Nat.lt_succ_self n) 0]
  simp

/-- The underscore is not among the padded digits or the `".flac"` tail. -/
theorem underscore_not_mem_tail (n : Nat) :
    '_' ∉ zeroPad3 (decimalDigits n) ++ flacTail := by
  intro h
  rcases List.mem_append.mp h with h | h
  · have := zeroPad3_digits n '_' h
    revert this; decide
  · revert h; decide


/-!
Claim theorems.
-/

/-- C1: for every captured stream_info, negotiation derives the sample
format from bits_per_sample as 8 → 8-bit signed, 16 → 16-bit signed,
24 → 24-bit-in-32 signed, 32 → 32-bit signed, anything else → Undefined,
and in the Undefined case negotiation fails (returns false). -/
theorem flac_sample_format_negotiation (si : StreamInfo) (data : flac_data)
    (hcap : data.have_stream_info = true) (hsi : data.stream_info = si) :
    flac_sample_format si =
      (if si.bits_per_sample = 8 then .s8
       else if si.bits_per_sample = 16 then .s16
       else if si.bits_per_sample = 24 then .s24_p32
       else if si.bits_per_sample = 32 then .s32
       else .undefined)
    ∧ (flac_sample_format si = .undefined →
        (flac_data_get_audio_format data).1 = false) := by
  constructor
  · rcases si with ⟨r, ch, b⟩
    simp only [flac_sample_format]
    split <;> simp_all
  · intro h
    simp only [flac_data_get_audio_format, hcap, hsi, h,
      audio_format_init_checked, Bool.true_eq_false, if_false, if_pos rfl,
      if_true, ite_self]

/-- C1 witness: 20 bits per sample maps to Undefined and negotiation on a
session that captured such a STREAMINFO fails. -/
theorem flac_sample_format_negotiation_witness :
    flac_sample_format ⟨44100, 2, 20⟩ = .undefined ∧
    (flac_data_get_audio_format data_bps20).1 = false := by
  have h := flac_sample_format_negotiation ⟨44100, 2, 20⟩ data_bps20 rfl rfl
  exact ⟨by decide, h.2 (by decide)⟩

/-- C2 counterexample: a session that has captured a first STREAMINFO
block (44100/2/16) and then processes a second, different STREAMINFO block
(48000/1/24) does not keep the first block — the stored stream_info
changes, so the first captured block does not win. -/
theorem flac_metadata_streaminfo_overwrites :
    data_after_si1.have_stream_info = true
    ∧ data_after_si1.stream_info = ⟨44100, 2, 16⟩
    ∧ data_after_si2.stream_info ≠ data_after_si1.stream_info
    ∧ data_after_si2.stream_info = ⟨48000, 1, 24⟩ := by
  decide

/-- C2 amended: every STREAMINFO-equivalent block processed by the
metadata callback overwrites the stored stream_info with the block's
contents and marks it captured — last write wins, with no other effect. -/
theorem flac_metadata_streaminfo_last_write_wins (RG : Type)
    (parse_rg : VorbisComment → Option RG)
    (merge_tag : Tag → VorbisComment → Tag)
    (si : StreamInfo) (data : flac_data) :
    flac_metadata_common_cb parse_rg merge_tag (.streaminfo si) data =
      ({ data with stream_info := si, have_stream_info := true }, []) := by
  rfl

/-- C3: after delivering frames of block sizes b1, ..., bk, next_frame
equals its initial value plus b1 + ... + bk, whatever commands the
consumer returned on each delivery. -/
theorem flac_write_many_next_frame (data : flac_data)
    (frames : List (FlacFrameHeader × Nat × decoder_command)) :
    (flac_write_many data frames).next_frame =
      data.next_frame + (frames.map (fun f => f.1.blocksize)).sum := by
  induction frames generalizing data with
  | nil => simp [flac_write_many]
  | cons f rest ih =>
      rcases f with ⟨frame, nbytes, cmd⟩
      rw [flac_write_many, ih]
      simp [flac_common_write]
      omega

/-- C4: flac_common_write returns the abort status exactly when the
consumer's command is Stop, and the continue status for None, Start and
Seek. -/
theorem flac_common_write_status (data : flac_data) (frame : FlacFrameHeader)
    (nbytes : Nat) (cmd : decoder_command) :
    (flac_common_write data frame nbytes cmd).status =
      (if cmd = .stop then .abort else .cont) := by
  cases cmd <;> rfl

/-- C5: the bit-rate estimate passed to the consumer is
nbytes * 8 * sample_rate / (1000 * blocksize) with truncating natural
division when nbytes > 0, and 0 when nbytes = 0, whenever the C integer
widths do not overflow (which holds for every representable FLAC frame
header). -/
theorem flac_common_write_bit_rate (data : flac_data)
    (frame : FlacFrameHeader) (nbytes : Nat) (cmd : decoder_command)
    (hsr : 0 < frame.sample_rate)
    (hnum : nbytes * 8 * frame.sample_rate < 2 ^ 64)
    (hden : 1000 * frame.blocksize < 2 ^ 32)
    (hq : nbytes * 8 * frame.sample_rate / (1000 * frame.blocksize) < 2 ^ 32) :
    (flac_common_write data frame nbytes cmd).bit_rate =
      if 0 < nbytes then
        nbytes * 8 * frame.sample_rate / (1000 * frame.blocksize)
      else 0 := by
  have hb : (flac_common_write data frame nbytes cmd).bit_rate =
      flac_bit_rate nbytes frame.sample_rate frame.blocksize := rfl
  rw [hb, flac_bit_rate]
  by_cases hn : 0 < nbytes
  · rw [if_pos hn, if_pos hn]
    have h8 : nbytes * 8 < 2 ^ 64 :=
      lt_of_le_of_lt (Nat.le_mul_of_pos_right _ hsr) hnum
    rw [Nat.mod_eq_of_lt h8, Nat.mod_eq_of_lt hnum, Nat.mod_eq_of_lt hden,
      Nat.mod_eq_of_lt hq]
  · rw [if_neg hn, if_neg hn]

/-- C5 witness: the claim's concrete inputs — nbytes 44100, rate 44100,
blocksize 4096 give floor(44100*8*44100/(1000*4096)) = 3798, and nbytes 0
gives 0. -/
theorem flac_common_write_bit_rate_witness :
    (flac_common_write flac_data_init ⟨4096, 2, 44100⟩ 44100 .none).bit_rate
        = 3798
    ∧ (flac_common_write flac_data_init ⟨4096, 2, 44100⟩ 0 .none).bit_rate
        = 0 := by
  have h1 := flac_common_write_bit_rate flac_data_init ⟨4096, 2, 44100⟩
    44100 .none (by decide) (by decide) (by decide) (by decide)
  have h2 := flac_common_write_bit_rate flac_data_init ⟨4096, 2, 44100⟩
    0 .none (by decide) (by decide) (by decide) (by decide)
  exact ⟨h1.trans (by decide), h2.trans (by decide)⟩

/-- C6: the error callback suppresses the event entirely when the pending
command is Stop, and otherwise emits exactly one warning naming the plugin,
classified as lost-sync, bad-header, crc-mismatch or unknown; in every case
the session state is returned unchanged (and, the embedding returning no
status, the handler cannot abort decoding). -/
theorem flac_error_common_cb_spec (plugin : String) (status : FlacErrorStatus)
    (cmd : decoder_command) (data : flac_data) :
    flac_error_common_cb plugin status cmd data =
      (data,
       if cmd = .stop then []
       else [⟨match status with
              | .lost_sync => .lostSync
              | .bad_header => .badHeader
              | .frame_crc_mismatch => .crcMismatch
              | .other => .unknown,
              plugin⟩]) := by
  cases cmd <;> cases status <;> rfl

/-- C7: negotiation on a session that never captured a STREAMINFO block
fails — the return value is false, no audio format is constructed, and the
session state is untouched. -/
theorem flac_data_get_audio_format_no_stream_info (data : flac_data)
    (h : data.have_stream_info = false) :
    flac_data_get_audio_format data = (false, none, data) := by
  rw [flac_data_get_audio_format, if_pos h]

/-- C7 witness: a freshly initialised session has no stream info and
negotiation fails on it. -/
theorem flac_data_get_audio_format_no_stream_info_witness :
    flac_data_get_audio_format flac_data_init = (false, none, flac_data_init) :=
  flac_data_get_audio_format_no_stream_info flac_data_init rfl

/-- Unfolding of `flac_vtrack_tnum` when the filename has an underscore. -/
theorem flac_vtrack_tnum_eq (s : String) (rest : List Char)
    (h : afterLast '_' s.data = some rest) :
    flac_vtrack_tnum s = ((clampLong (strtol10 rest)).emod (2 ^ 32)).toNat := by
  unfold flac_vtrack_tnum
  rw [h]

/-- Unfolding of `flac_vtrack_tnum` when the filename has no underscore. -/
theorem flac_vtrack_tnum_eq_zero (s : String)
    (h : afterLast '_' s.data = none) : flac_vtrack_tnum s = 0 := by
  unfold flac_vtrack_tnum
  rw [h]

/-- Reduction of the clamp-cast pipeline on a small nonnegative value. -/
theorem clampLong_emod_small (n : Nat) (h : n < 2 ^ 32) :
    ((clampLong (n : Int)).emod (2 ^ 32)).toNat = n := by
  have h0 : (0 : Int) ≤ (n : Int) := Int.ofNat_nonneg n
  have hlt : (n : Int) < 2 ^ 32 := by exact_mod_cast h
  have hle : (n : Int) ≤ 2 ^ 63 - 1 :=
    le_trans (le_of_lt hlt) (by norm_num)
  have hge : (-(2 ^ 63) : Int) ≤ (n : Int) :=
    le_trans (by norm_num) h0
  rw [clampLong, min_eq_right hle, max_eq_right hge]
  show ((n : Int) % (2 ^ 32 : Int)).toNat = n
  rw [Int.emod_eq_of_lt h0 hlt]
  exact Int.toNat_natCast n

/-- C8: flac_cue_track yields the synthetic zero-padded filename exactly
when the cue sheet has more than one track and 1 ≤ tnum < num_tracks, and
none otherwise; in particular one track yields none for every index, and
four tracks yield "track_002.flac" for index 2 but none for 0 or 4. -/
theorem flac_cue_track_spec (T tnum : Nat) :
    (flac_cue_track (some ⟨T⟩) tnum =
      if 1 < T ∧ 0 < tnum ∧ tnum < T then
        some (String.mk (trackHead ++ zeroPad3 (decimalDigits tnum) ++ flacTail))
      else none)
    ∧ flac_cue_track (some ⟨1⟩) tnum = none
    ∧ flac_cue_track (some ⟨4⟩) 2 = some "track_002.flac"
    ∧ flac_cue_track (some ⟨4⟩) 0 = none
    ∧ flac_cue_track (some ⟨4⟩) 4 = none := by
  refine ⟨?_, ?_, by decide, by decide, by decide⟩
  · simp only [flac_cue_track]
    by_cases hle : T ≤ 1
    · rw [if_pos hle, if_neg (by omega)]
    · rw [if_neg hle]
      by_cases hin : 0 < tnum ∧ tnum < T
      · rw [if_pos hin, if_pos ⟨by omega, hin⟩]
      · rw [if_neg hin, if_neg (fun hc => hin ⟨hc.2.1, hc.2.2⟩)]
  · simp [flac_cue_track]

/-- C9 counterexample: in "track_+7.flac" the suffix after the last
underscore is "+7.flac", which does not begin with a decimal digit, yet
flac_vtrack_tnum returns 7, not the 0 the claim requires (strtol accepts
the sign). -/
theorem flac_vtrack_tnum_sign_accepted :
    afterLast '_' (String.data "track_+7.flac") =
      some ['+', '7', '.', 'f', 'l', 'a', 'c']
    ∧ isDigitChar '+' = false
    ∧ flac_vtrack_tnum "track_+7.flac" = 7 := by
  decide

/-- Dropping leading white space from an all-space head keeps exactly the
tail, provided the tail does not itself start with white space. -/
theorem dropWhile_space_append (ws l : List Char)
    (hws : ∀ c ∈ ws, isSpaceChar c = true)
    (hl : ∀ c, l.head? = some c → isSpaceChar c = false) :
    (ws ++ l).dropWhile isSpaceChar = l := by
  induction ws with
  | nil =>
      cases l with
      | nil => rfl
      | cons c cs =>
          rw [List.nil_append, List.dropWhile_cons, if_neg (by simp [hl c rfl])]
  | cons w ws ih =>
      have hw : isSpaceChar w = true := hws w (List.mem_cons_self w ws)
      rw [List.cons_append, List.dropWhile_cons, if_pos (by simp [hw])]
      exact ih (fun c hc => hws c (List.mem_cons_of_mem w hc))

/-- Unfolding of `strtol10` when everything is white space. -/
theorem strtol10_nil_case (l : List Char)
    (h : l.dropWhile isSpaceChar = []) : strtol10 l = 0 := by
  simp only [strtol10]
  rw [h]

/-- Unfolding of `strtol10` when a first non-space character exists. -/
theorem strtol10_cons_case (l : List Char) (c : Char) (cs : List Char)
    (h : l.dropWhile isSpaceChar = c :: cs) :
    strtol10 l =
      if c = '-' then -(digitsVal cs 0 : Int)
      else if c = '+' then (digitsVal cs 0 : Int)
      else (digitsVal (c :: cs) 0 : Int) := by
  simp only [strtol10]
  rw [h]

/-- `strtol` on a suffix decomposed as white space, an optional sign, a
digit run and a non-digit remainder: the result is the digit run's value,
negated under `'-'`.  The `hmax` hypothesis makes the decomposition
canonical when both the sign and the digit run are empty. -/
theorem strtol10_decomposed (ws sgn ds rest : List Char)
    (hws : ∀ c ∈ ws, isSpaceChar c = true)
    (hsgn : sgn = [] ∨ sgn = ['+'] ∨ sgn = ['-'])
    (hdig : ∀ c ∈ ds, isDigitChar c = true)
    (hrest : ∀ c, rest.head? = some c → isDigitChar c = false)
    (hmax : ds = [] → sgn = [] →
      ∀ c, rest.head? = some c →
        isSpaceChar c = false ∧ c ≠ '+' ∧ c ≠ '-') :
    strtol10 (ws ++ (sgn ++ (ds ++ rest))) =
      if sgn = ['-'] then -(digitsVal ds 0 : Int)
      else (digitsVal ds 0 : Int) := by
  have hval : digitsVal (ds ++ rest) 0 = digitsVal ds 0 := by
    rw [digitsVal_append ds hdig rest 0, digitsVal_of_head_not_digit rest hrest]
  rcases hsgn with rfl | rfl | rfl
  · simp only [List.nil_append]
    cases ds with
    | nil =>
        simp only [List.nil_append] at hval ⊢
        cases rest with
        | nil =>
            rw [List.append_nil]
            rw [strtol10_nil_case ws (by
              simpa using dropWhile_space_append ws [] hws (by intro c hc; cases hc))]
            simp [digitsVal]
        | cons c cs =>
            have hm := hmax rfl rfl c (by rw [List.head?_cons])
            have hdrop : (ws ++ c :: cs).dropWhile isSpaceChar = c :: cs :=
              dropWhile_space_append ws (c :: cs) hws (by
                intro x hx
                rw [List.head?_cons, Option.some.injEq] at hx
                rw [← hx]; exact hm.1)
            rw [strtol10_cons_case _ c cs hdrop]
            rw [if_neg hm.2.2, if_neg hm.2.1]
            rw [hval]
            simp
    | cons d ds' =>
        have hd : isDigitChar d = true := hdig d (List.mem_cons_self d ds')
        obtain ⟨hdm, hdp, _, hdsp⟩ := isDigitChar_ne d hd
        have hdrop :
            (ws ++ (d :: ds') ++ rest).dropWhile isSpaceChar
              = d :: (ds' ++ rest) := by
          rw [List.append_assoc, List.cons_append]
          exact dropWhile_space_append ws (d :: (ds' ++ rest)) hws (by
            intro x hx
            rw [List.head?_cons, Option.some.injEq] at hx
            rw [← hx]; exact hdsp)
        rw [show ws ++ ((d :: ds') ++ rest) = ws ++ (d :: ds') ++ rest from
          (List.append_assoc _ _ _).symm]
        rw [strtol10_cons_case _ d (ds' ++ rest) hdrop]
        rw [if_neg hdm, if_neg hdp]
        rw [show d :: (ds' ++ rest) = (d :: ds') ++ rest from rfl, hval]
        simp
  · have hdrop :
        (ws ++ (['+'] ++ (ds ++ rest))).dropWhile isSpaceChar
          = '+' :: (ds ++ rest) :=
      dropWhile_space_append ws ('+' :: (ds ++ rest)) hws (by
        intro x hx
        rw [List.head?_cons, Option.some.injEq] at hx
        rw [← hx]; decide)
    rw [strtol10_cons_case _ '+' (ds ++ rest) hdrop]
    rw [if_neg (by decide), if_pos rfl, hval]
    simp
  · have hdrop :
        (ws ++ (['-'] ++ (ds ++ rest))).dropWhile isSpaceChar
          = '-' :: (ds ++ rest) :=
      dropWhile_space_append ws ('-' :: (ds ++ rest)) hws (by
        intro x hx
        rw [List.head?_cons, Option.some.injEq] at hx
        rw [← hx]; decide)
    rw [strtol10_cons_case _ '-' (ds ++ rest) hdrop]
    rw [if_pos rfl, hval]
    simp

/-- Reduction of the clamp-cast pipeline on an arbitrary nonnegative
value: clamp at `LONG_MAX`, then cast to unsigned 32-bit. -/
theorem clampLong_cast_pos (v : Nat) :
    ((clampLong (v : Int)).emod (2 ^ 32)).toNat = min v (2 ^ 63 - 1) % 2 ^ 32 := by
  have hcast : ((min v (2 ^ 63 - 1) : Nat) : Int) =
      min ((2 : Int) ^ 63 - 1) (v : Int) := by
    rw [Nat.cast_min, min_comm]
    norm_num
  have h1 : clampLong (v : Int) = ((min v (2 ^ 63 - 1) : Nat) : Int) := by
    rw [clampLong]
    rw [max_eq_right (le_trans (by norm_num : (-(2 ^ 63) : Int) ≤ 0)
      (le_min (by norm_num) (Int.ofNat_nonneg v)))]
    rw [hcast]
  rw [h1]
  generalize (min v (2 ^ 63 - 1) : Nat) = m
  rw [show ((2 : Int) ^ 32) = 4294967296 by norm_num,
    show ((2 : Nat) ^ 32) = 4294967296 by norm_num]
  show ((m : Int) % 4294967296).toNat = m % 4294967296
  omega

/-- Reduction of the clamp-cast pipeline on an arbitrary nonpositive
value: clamp at `LONG_MIN`, then cast to unsigned 32-bit (two's-complement
wrap). -/
theorem clampLong_cast_neg (v : Nat) :
    ((clampLong (-(v : Int))).emod (2 ^ 32)).toNat =
      (2 ^ 32 - min v (2 ^ 63) % 2 ^ 32) % 2 ^ 32 := by
  have hcast : ((min v (2 ^ 63) : Nat) : Int) =
      min ((2 : Int) ^ 63) (v : Int) := by
    rw [Nat.cast_min, min_comm]
    norm_num
  have h1 : clampLong (-(v : Int)) = -((min v (2 ^ 63) : Nat) : Int) := by
    rw [clampLong]
    rw [min_eq_right (le_trans (neg_nonpos.mpr (Int.ofNat_nonneg v))
      (by norm_num))]
    rw [max_neg_neg, hcast]
  rw [h1]
  generalize (min v (2 ^ 63) : Nat) = m
  rw [show ((2 : Int) ^ 32) = 4294967296 by norm_num,
    show ((2 : Nat) ^ 32) = 4294967296 by norm_num]
  show ((-(m : Int)) % 4294967296).toNat =
    (4294967296 - m % 4294967296) % 4294967296
  omega

/-- C9 amended: for every filename, flac_vtrack_tnum returns the value
strtol parses from the characters immediately after the last underscore —
any leading run of white space and one optional '+'/'-' sign are accepted
before the decimal digit run, the digit run's value (clamped to the 64-bit
long range, negated under '-') is cast to unsigned 32-bit — and returns 0
when the string contains no underscore or when no digits follow the
optional white space and sign (an empty digit run yields 0 on both
branches). -/
theorem flac_vtrack_tnum_amended (p ws sgn ds rest : List Char)
    (hws : ∀ c ∈ ws, isSpaceChar c = true)
    (hsgn : sgn = [] ∨ sgn = ['+'] ∨ sgn = ['-'])
    (hdig : ∀ c ∈ ds, isDigitChar c = true)
    (hu : '_' ∉ rest)
    (hrest : ∀ c, rest.head? = some c → isDigitChar c = false)
    (hmax : ds = [] → sgn = [] →
      ∀ c, rest.head? = some c →
        isSpaceChar c = false ∧ c ≠ '+' ∧ c ≠ '-') :
    flac_vtrack_tnum (String.mk (p ++ '_' :: (ws ++ (sgn ++ (ds ++ rest))))) =
      (if sgn = ['-'] then
        (2 ^ 32 - min (digitsVal ds 0) (2 ^ 63) % 2 ^ 32) % 2 ^ 32
       else min (digitsVal ds 0) (2 ^ 63 - 1) % 2 ^ 32)
    ∧ (∀ q : List Char, '_' ∉ q → flac_vtrack_tnum (String.mk q) = 0) := by
  constructor
  · have hmem : '_' ∉ ws ++ (sgn ++ (ds ++ rest)) := by
      intro hm
      rcases List.mem_append.mp hm with h | h
      · have := hws '_' h; revert this; decide
      · rcases List.mem_append.mp h with h | h
        · rcases hsgn with rfl | rfl | rfl
          · exact absurd h (by decide)
          · exact absurd h (by decide)
          · exact absurd h (by decide)
        · rcases List.mem_append.mp h with h | h
          · have := hdig '_' h; revert this; decide
          · exact hu h
    have h1 : afterLast '_' ('_' :: (ws ++ (sgn ++ (ds ++ rest))))
        = some (ws ++ (sgn ++ (ds ++ rest))) := by
      rw [afterLast, afterLast_eq_none '_' _ hmem]
      simp
    have hafter :
        afterLast '_' (String.mk (p ++ '_' :: (ws ++ (sgn ++ (ds ++ rest))))).data
          = some (ws ++ (sgn ++ (ds ++ rest))) := by
      show afterLast '_' (p ++ '_' :: (ws ++ (sgn ++ (ds ++ rest)))) = _
      rw [afterLast_append, h1]
    rw [flac_vtrack_tnum_eq _ _ hafter]
    rw [strtol10_decomposed ws sgn ds rest hws hsgn hdig hrest hmax]
    by_cases hneg : sgn = ['-']
    · rw [if_pos hneg, if_pos hneg]
      exact clampLong_cast_neg _
    · rw [if_neg hneg, if_neg hneg]
      exact clampLong_cast_pos _
  · intro q hq
    exact flac_vtrack_tnum_eq_zero (String.mk q) (afterLast_eq_none '_' q hq)

/-- C9 witness: the amended statement at concrete filenames — the claim's
own examples "track_007.flac" (digit run) and "album.flac" (no
underscore), plus "track_x.flac" (no digits after the last underscore,
hence 0) and "track_ -12.flac" (white space and a minus sign accepted,
-12 cast to unsigned 32-bit). -/
theorem flac_vtrack_tnum_amended_witness :
    flac_vtrack_tnum "track_007.flac" = 7
    ∧ flac_vtrack_tnum "track_x.flac" = 0
    ∧ flac_vtrack_tnum "track_ -12.flac" = 4294967284
    ∧ flac_vtrack_tnum "album.flac" = 0 := by
  have h1 := flac_vtrack_tnum_amended ['t', 'r', 'a', 'c', 'k'] [] []
    ['0', '0', '7'] ['.', 'f', 'l', 'a', 'c'] (by decide) (Or.inl rfl)
    (by decide) (by decide) (by intro c hc; cases hc; decide)
    (by intro hds; exact absurd hds (by decide))
  have h2 := flac_vtrack_tnum_amended ['t', 'r', 'a', 'c', 'k'] [] [] []
    ['x', '.', 'f', 'l', 'a', 'c'] (by decide) (Or.inl rfl)
    (by decide) (by decide) (by intro c hc; cases hc; decide)
    (by intro _ _ c hc; cases hc; exact ⟨by decide, by decide, by decide⟩)
  have h3 := flac_vtrack_tnum_amended ['t', 'r', 'a', 'c', 'k'] [' '] ['-']
    ['1', '2'] ['.', 'f', 'l', 'a', 'c'] (by decide) (Or.inr (Or.inr rfl))
    (by decide) (by decide) (by intro c hc; cases hc; decide)
    (by intro hds; exact absurd hds (by decide))
  exact ⟨h1.1.trans (by decide), h2.1.trans (by decide),
    h3.1.trans (by decide), h1.2 (String.data "album.flac") (by decide)⟩

/-- C10: on the generator's whole accepted domain (more than one track,
1 ≤ tnum < num_tracks, the track count being a C unsigned), the
trailing-number parser recovers tnum from the generated synthetic
filename. -/
theorem flac_cue_track_round_trip (T tnum : Nat)
    (h1 : 1 < T) (h2 : 1 ≤ tnum) (h3 : tnum < T) (h4 : T ≤ 2 ^ 32) :
    ∃ name, flac_cue_track (some ⟨T⟩) tnum = some name
      ∧ flac_vtrack_tnum name = tnum := by
  refine ⟨String.mk (trackHead ++ zeroPad3 (decimalDigits tnum) ++ flacTail),
    ?_, ?_⟩
  · simp only [flac_cue_track]
    rw [if_neg (by omega : ¬ T ≤ 1), if_pos ⟨by omega, h3⟩]
  · have hu : '_' ∉ zeroPad3 (decimalDigits tnum) ++ flacTail :=
      underscore_not_mem_tail tnum
    have hdata :
        (String.mk (trackHead ++ zeroPad3 (decimalDigits tnum) ++ flacTail)).data
          = trackHead ++ (zeroPad3 (decimalDigits tnum) ++ flacTail) := by
      show trackHead ++ zeroPad3 (decimalDigits tnum) ++ flacTail
          = trackHead ++ (zeroPad3 (decimalDigits tnum) ++ flacTail)
      exact List.append_assoc _ _ _
    have hafter :
        afterLast '_'
            (String.mk (trackHead ++ zeroPad3 (decimalDigits tnum) ++ flacTail)).data
          = some (zeroPad3 (decimalDigits tnum) ++ flacTail) := by
      rw [hdata]
      exact afterLast_trackHead _ hu
    rw [flac_vtrack_tnum_eq _ _ hafter]
    rw [strtol10_digits _ flacTail (zeroPad3_ne_nil tnum) (zeroPad3_digits tnum)
      (by intro c hc; cases hc; decide)]
    rw [digitsVal_zeroPad3]
    exact clampLong_emod_small tnum (by omega)

/-- C10 witness: with four tracks, index 2 generates "track_002.flac" and
parses back to 2. -/
theorem flac_cue_track_round_trip_witness :
    ∃ name, flac_cue_track (some ⟨4⟩) 2 = some name
      ∧ flac_vtrack_tnum name = 2 :=
  flac_cue_track_round_trip 4 2 (by decide) (by decide) (by decide) (by decide)
